import Mathlib

/-!
Verification of the League Manager coordination layer of the
SharonKIDC/AIAgents3997-HW7 repository against its specification.

Each Lean definition below is a shallow embedding of a function of the
Python source (file and symbol named in its doc comment).  Python dicts
are modelled as insertion-ordered association lists, SQLite tables as
association lists keyed by their primary key, and fallible handlers as
functions returning `Except` together with the (explicitly threaded)
database state.
-/

namespace LeagueSys

/-! ## Association-list primitives (model of Python dict / SQL row lookup) -/

/-- Lookup of a key in an insertion-ordered association list; models
Python dict indexing and single-row `SELECT ... WHERE key = ?`. -/
def alist_get {β : Type} (k : String) : List (String × β) → Option β
  | [] => none
  | (k', v) :: rest => if k = k' then some v else alist_get k rest

/-- Update-or-append of a key; models Python dict assignment
(`d[k] = v`): an existing key keeps its position, a new key is
appended at the end. -/
def alist_set {β : Type} (k : String) (v : β) : List (String × β) → List (String × β)
  | [] => [(k, v)]
  | (k', v') :: rest =>
    if k = k' then (k, v) :: rest else (k', v') :: alist_set k v rest

/-- In-place update of every row with the given key; models
`UPDATE t SET ... WHERE key = ?`. -/
def alist_update {β : Type} (k : String) (f : β → β) : List (String × β) → List (String × β)
  | [] => []
  | (k', v) :: rest =>
    if k' = k then (k', f v) :: alist_update k f rest
    else (k', v) :: alist_update k f rest

theorem alist_get_set_self {β : Type} (k : String) (v : β) (l : List (String × β)) :
    alist_get k (alist_set k v l) = some v := by
  induction l with
  | nil => simp [alist_set, alist_get]
  | cons p rest ih =>
    by_cases h : k = p.1
    · simp [alist_set, h, alist_get]
    · simp [alist_set, h, alist_get, ih]

theorem alist_get_update_self {β : Type} (k : String) (f : β → β) (l : List (String × β)) :
    alist_get k (alist_update k f l) = (alist_get k l).map f := by
  induction l with
  | nil => simp [alist_update, alist_get]
  | cons p rest ih =>
    obtain ⟨k1, v1⟩ := p
    by_cases h : k1 = k
    · subst h
      simp [alist_update, alist_get]
    · have h2 : ¬ k = k1 := fun hh => h hh.symm
      simpa [alist_update, alist_get, h, h2] using ih

theorem alist_get_update_other {β : Type} (k k' : String) (hk : k' ≠ k)
    (f : β → β) (l : List (String × β)) :
    alist_get k' (alist_update k f l) = alist_get k' l := by
  induction l with
  | nil => simp [alist_update, alist_get]
  | cons p rest ih =>
    obtain ⟨k1, v1⟩ := p
    by_cases h : k1 = k
    · subst h
      simpa [alist_update, alist_get, hk] using ih
    · by_cases h2 : k' = k1
      · simp [alist_update, alist_get, h, h2]
      · simpa [alist_update, alist_get, h, h2] using ih

theorem alist_get_append_of_none {β : Type} (k : String) (v : β)
    (l : List (String × β)) (h : alist_get k l = none) :
    alist_get k (l ++ [(k, v)]) = some v := by
  induction l with
  | nil => simp [alist_get]
  | cons p rest ih =>
    by_cases hk : k = p.1
    · simp [alist_get, hk] at h
    · simp [alist_get, hk] at h ⊢
      exact ih h

/-! ## Python string order

`sorted(player_ids)` in the scheduler compares strings with Python's
`<`, which is code-point lexicographic comparison of the character
sequences.  It is embedded structurally so that concrete schedules can
be evaluated by the kernel. -/

/-- Code-point lexicographic strict comparison of character lists
(the comparison Python uses for `str`). -/
def chars_lt : List Char → List Char → Bool
  | _, [] => false
  | [], _ :: _ => true
  | c :: cs, d :: ds => if c = d then chars_lt cs ds else decide (c.toNat < d.toNat)

/-- Python's `a < b` on strings. -/
def py_lt (a b : String) : Prop := chars_lt a.data b.data = true

/-- Python's `a <= b` on strings (total order, so `a <= b` iff not `b < a`). -/
def py_le (a b : String) : Prop := chars_lt b.data a.data = false

instance : DecidableRel py_lt := fun a b =>
  inferInstanceAs (Decidable (chars_lt a.data b.data = true))

instance : DecidableRel py_le := fun a b =>
  inferInstanceAs (Decidable (chars_lt b.data a.data = false))

theorem char_toNat_inj (c d : Char) (h : c.toNat = d.toNat) : c = d := by
  have hbv : c.val.toBitVec.toNat = d.val.toBitVec.toNat := h
  exact Char.eq_of_val_eq (UInt32.eq_of_toBitVec_eq (BitVec.eq_of_toNat_eq hbv))

theorem chars_lt_asymm (a b : List Char) (h : chars_lt a b = true) :
    chars_lt b a = false := by
  induction a generalizing b with
  | nil =>
    cases b with
    | nil => simp [chars_lt] at h
    | cons d ds => simp [chars_lt]
  | cons c cs ih =>
    cases b with
    | nil => simp [chars_lt] at h
    | cons d ds =>
      by_cases hcd : c = d
      · subst hcd
        simp only [chars_lt, if_pos rfl] at h ⊢
        exact ih ds h
      · have hdc : d ≠ c := fun hh => hcd hh.symm
        simp only [chars_lt, if_neg hcd, if_neg hdc, decide_eq_true_eq,
          decide_eq_false_iff_not] at h ⊢
        omega

theorem chars_lt_trans (a b c : List Char) (hab : chars_lt a b = true)
    (hbc : chars_lt b c = true) : chars_lt a c = true := by
  induction a generalizing b c with
  | nil =>
    cases c with
    | nil =>
      cases b with
      | nil => simp [chars_lt] at hab
      | cons d ds => simp [chars_lt] at hbc
    | cons e es => simp [chars_lt]
  | cons x xs ih =>
    cases b with
    | nil => simp [chars_lt] at hab
    | cons d ds =>
      cases c with
      | nil => simp [chars_lt] at hbc
      | cons e es =>
        by_cases hxd : x = d
        · subst hxd
          by_cases hxe : x = e
          · subst hxe
            simp only [chars_lt, if_pos rfl] at hab hbc ⊢
            exact ih ds es hab hbc
          · simp only [chars_lt, if_pos rfl, if_neg hxe] at hab hbc ⊢
            exact hbc
        · by_cases hde : d = e
          · subst hde
            by_cases hxe : x = d
            · exact absurd hxe hxd
            · simp only [chars_lt, if_neg hxd, if_neg hxe] at hab ⊢
              exact hab
          · have hxe : x ≠ e := by
              intro hh
              subst hh
              simp only [chars_lt, if_neg hxd, if_neg hde, decide_eq_true_eq] at hab hbc
              omega
            simp only [chars_lt, if_neg hxd, if_neg hde, if_neg hxe,
              decide_eq_true_eq] at hab hbc ⊢
            omega

theorem chars_eq_of_not_lt (a b : List Char) (hab : chars_lt a b = false)
    (hba : chars_lt b a = false) : a = b := by
  induction a generalizing b with
  | nil =>
    cases b with
    | nil => rfl
    | cons d ds => simp [chars_lt] at hab
  | cons c cs ih =>
    cases b with
    | nil => simp [chars_lt] at hba
    | cons d ds =>
      by_cases hcd : c = d
      · subst hcd
        simp only [chars_lt, if_pos rfl] at hab hba
        rw [ih ds hab hba]
      · have hdc : d ≠ c := fun hh => hcd hh.symm
        simp only [chars_lt, if_neg hcd, if_neg hdc, decide_eq_false_iff_not] at hab hba
        exact absurd (char_toNat_inj c d (by omega)) hcd

theorem py_lt_asymm (a b : String) (h : py_lt a b) : ¬ py_lt b a := by
  unfold py_lt at h ⊢
  simp [chars_lt_asymm _ _ h]

theorem py_lt_ne (a b : String) (h : py_lt a b) : a ≠ b := by
  intro hh
  subst hh
  exact (py_lt_asymm a a h) h

theorem string_eq_of_data_eq (a b : String) (h : a.data = b.data) : a = b := by
  cases a; cases b; exact congrArg String.mk h

theorem py_lt_of_le_of_ne (a b : String) (hle : py_le a b) (hne : a ≠ b) :
    py_lt a b := by
  unfold py_le at hle
  unfold py_lt
  cases hab : chars_lt a.data b.data with
  | true => rfl
  | false => exact absurd (string_eq_of_data_eq a b (chars_eq_of_not_lt _ _ hab hle)) hne

instance : IsTotal String py_le :=
  ⟨fun a b => by
    unfold py_le
    cases h : chars_lt b.data a.data with
    | false => exact Or.inl rfl
    | true => exact Or.inr (chars_lt_asymm _ _ h)⟩

instance : IsTrans String py_le :=
  ⟨fun a b c hab hbc => by
    unfold py_le at hab hbc ⊢
    cases hca : chars_lt c.data a.data with
    | false => rfl
    | true =>
      cases hablt : chars_lt a.data b.data with
      | true => exact absurd (chars_lt_trans _ _ _ hca hablt) (by simp [hbc])
      | false =>
        have hd : a.data = b.data := chars_eq_of_not_lt _ _ hablt hab
        rw [hd] at hca
        exact absurd hca (by simp [hbc])⟩

instance : IsAntisymm String py_le :=
  ⟨fun a b hab hba => by
    unfold py_le at hab hba
    exact string_eq_of_data_eq a b (chars_eq_of_not_lt _ _ hba hab)⟩

/-! ## Scheduler (`src/league_manager/scheduler.py`) -/

/-- All unordered pairs of a list, in the order produced by
`itertools.combinations(lst, 2)` inside
`RoundRobinScheduler.generate_schedule`. -/
def combinations2 {α : Type} : List α → List (α × α)
  | [] => []
  | x :: xs => (xs.map fun y => (x, y)) ++ combinations2 xs

/-- One pass of the greedy round construction of
`RoundRobinScheduler._group_into_rounds`: scan the remaining pairs in
order, taking each pair whose two players are not yet used in the round
under construction.  Returns the constructed round and the remaining
(not yet scheduled) pairs, in their original order. -/
def scan_round {α : Type} [DecidableEq α] :
    List (α × α) → List α → List (α × α) × List (α × α)
  | [], _ => ([], [])
  | (a, b) :: rest, used =>
    if a ∉ used ∧ b ∉ used then
      let s := scan_round rest (a :: b :: used)
      ((a, b) :: s.1, s.2)
    else
      let s := scan_round rest used
      (s.1, (a, b) :: s.2)

/-- The `while remaining_matches:` loop of
`RoundRobinScheduler._group_into_rounds`, written with an explicit fuel
argument so that the definition is structural.  Each loop iteration
consumes at least one pair, so fuel equal to the number of pairs is
always sufficient (`group_go_spec` below). -/
def group_go {α : Type} [DecidableEq α] :
    Nat → List (α × α) → List (List (α × α))
  | 0, _ => []
  | _, [] => []
  | fuel + 1, m :: ms =>
    let s := scan_round (m :: ms) ([] : List α)
    s.1 :: group_go fuel s.2

/-- `RoundRobinScheduler._group_into_rounds`: repeatedly build rounds
greedily until no pair remains. -/
def group_into_rounds {α : Type} [DecidableEq α] (ms : List (α × α)) :
    List (List (α × α)) :=
  group_go ms.length ms

/-- The round/match structure computed by
`RoundRobinScheduler.generate_schedule`: sort the player IDs, enumerate
all unique pairs, and group them greedily into rounds.  The database
writes and the freshly generated uuid round/match identifiers of the
source are elided; round `i` of the result is persisted with sequential
`round_number = i + 1`. -/
def generate_schedule (player_ids : List String) : List (List (String × String)) :=
  let sorted_players := List.insertionSort py_le player_ids
  if sorted_players.length < 2 then []
  else group_into_rounds (combinations2 sorted_players)

/-- The players mentioned by the matches of one round, with multiplicity. -/
def round_players {α : Type} : List (α × α) → List α
  | [] => []
  | (a, b) :: r => a :: b :: round_players r

theorem round_players_length {α : Type} (r : List (α × α)) :
    (round_players r).length = 2 * r.length := by
  induction r with
  | nil => simp [round_players]
  | cons p rest ih => obtain ⟨a, b⟩ := p; simp [round_players, ih]; omega

theorem mem_round_players {α : Type} (r : List (α × α)) (x : α) :
    x ∈ round_players r ↔ ∃ p ∈ r, x = p.1 ∨ x = p.2 := by
  induction r with
  | nil => simp [round_players]
  | cons p rest ih =>
    obtain ⟨a, b⟩ := p
    simp [round_players, ih]
    constructor
    · rintro (h | h | ⟨q, hq, hx⟩)
      · exact Or.inl (Or.inl h)
      · exact Or.inl (Or.inr h)
      · exact Or.inr ⟨q, hq, hx⟩
    · rintro (⟨h | h⟩ | ⟨q, hq, hx⟩)
      · exact Or.inl h
      · exact Or.inr (Or.inl h)
      · exact Or.inr (Or.inr ⟨q, hq, hx⟩)

theorem scan_round_perm {α : Type} [DecidableEq α] (ms : List (α × α)) (used : List α) :
    ms.Perm ((scan_round ms used).1 ++ (scan_round ms used).2) := by
  induction ms generalizing used with
  | nil => simp [scan_round]
  | cons p rest ih =>
    obtain ⟨a, b⟩ := p
    by_cases h : a ∉ used ∧ b ∉ used
    · simp only [scan_round, if_pos h]
      simpa using (ih (a :: b :: used)).cons (a, b)
    · simp only [scan_round, if_neg h]
      exact ((ih used).cons (a, b)).trans List.perm_middle.symm

theorem scan_round_snd_le {α : Type} [DecidableEq α] (ms : List (α × α)) (used : List α) :
    (scan_round ms used).2.length ≤ ms.length := by
  have h := (scan_round_perm ms used).length_eq
  simp only [List.length_append] at h
  omega

theorem scan_round_snd_lt {α : Type} [DecidableEq α] (m : α × α) (ms : List (α × α)) :
    (scan_round (m :: ms) ([] : List α)).2.length < (m :: ms).length := by
  obtain ⟨a, b⟩ := m
  have h : a ∉ ([] : List α) ∧ b ∉ ([] : List α) := by simp
  simp only [scan_round, if_pos h]
  have := scan_round_snd_le ms [a, b]
  simpa using Nat.lt_succ_of_le this

theorem scan_round_fst_subset {α : Type} [DecidableEq α] (ms : List (α × α)) (used : List α) :
    ∀ p ∈ (scan_round ms used).1, p ∈ ms := fun p hp =>
  (scan_round_perm ms used).mem_iff.mpr (List.mem_append.mpr (Or.inl hp))

theorem scan_round_snd_subset {α : Type} [DecidableEq α] (ms : List (α × α)) (used : List α) :
    ∀ p ∈ (scan_round ms used).2, p ∈ ms := fun p hp =>
  (scan_round_perm ms used).mem_iff.mpr (List.mem_append.mpr (Or.inr hp))

theorem scan_round_nodup {α : Type} [DecidableEq α] (ms : List (α × α)) (used : List α)
    (hms : ∀ p ∈ ms, p.1 ≠ p.2) (hu : used.Nodup) :
    (round_players (scan_round ms used).1 ++ used).Nodup := by
  induction ms generalizing used with
  | nil => simpa [scan_round, round_players] using hu
  | cons p rest ih =>
    obtain ⟨a, b⟩ := p
    by_cases h : a ∉ used ∧ b ∉ used
    · simp only [scan_round, if_pos h]
      have hab : a ≠ b := hms (a, b) (by simp)
      have hu2 : (a :: b :: used).Nodup := by
        simp [List.nodup_cons, h.1, h.2, hab, hu]
      have hrec := ih (a :: b :: used) (fun q hq => hms q (by simp [hq])) hu2
      have hperm :
          (round_players (scan_round rest (a :: b :: used)).1 ++ (a :: b :: used)).Perm
            (a :: b :: (round_players (scan_round rest (a :: b :: used)).1 ++ used)) :=
        List.perm_middle.trans (List.perm_middle.cons a)
      have := hperm.nodup hrec
      simpa [round_players] using this
    · simp only [scan_round, if_neg h]
      exact ih used (fun q hq => hms q (by simp [hq])) hu

theorem group_go_join_perm {α : Type} [DecidableEq α] (fuel : Nat) (ms : List (α × α))
    (hf : ms.length ≤ fuel) : (group_go fuel ms).flatten.Perm ms := by
  induction fuel generalizing ms with
  | zero =>
    have : ms = [] := List.length_eq_zero.mp (Nat.le_zero.mp hf)
    subst this
    simp [group_go]
  | succ fuel ih =>
    cases ms with
    | nil => simp [group_go]
    | cons m rest =>
      simp only [group_go, List.flatten_cons]
      have hlt := scan_round_snd_lt m rest
      have hrec := ih (scan_round (m :: rest) ([] : List α)).2 (by omega)
      exact (List.Perm.append_left _ hrec).trans (scan_round_perm (m :: rest) []).symm

theorem group_go_round_nodup {α : Type} [DecidableEq α] (fuel : Nat) (ms : List (α × α))
    (hf : ms.length ≤ fuel) (hms : ∀ p ∈ ms, p.1 ≠ p.2) :
    ∀ r ∈ group_go fuel ms, (round_players r).Nodup := by
  induction fuel generalizing ms with
  | zero => simp [group_go]
  | succ fuel ih =>
    cases ms with
    | nil => simp [group_go]
    | cons m rest =>
      intro r hr
      simp only [group_go, List.mem_cons] at hr
      rcases hr with hr | hr
      · subst hr
        have := scan_round_nodup (m :: rest) [] hms (by simp)
        simpa using this
      · have hlt := scan_round_snd_lt m rest
        exact ih (scan_round (m :: rest) ([] : List α)).2 (by omega)
          (fun q hq => hms q (scan_round_snd_subset _ _ q hq)) r hr

theorem group_into_rounds_join_perm {α : Type} [DecidableEq α] (ms : List (α × α)) :
    (group_into_rounds ms).flatten.Perm ms :=
  group_go_join_perm ms.length ms (le_refl _)

theorem group_into_rounds_round_nodup {α : Type} [DecidableEq α] (ms : List (α × α))
    (hms : ∀ p ∈ ms, p.1 ≠ p.2) :
    ∀ r ∈ group_into_rounds ms, (round_players r).Nodup :=
  group_go_round_nodup ms.length ms (le_refl _) hms

theorem combinations2_length {α : Type} (l : List α) :
    (combinations2 l).length = l.length.choose 2 := by
  induction l with
  | nil => simp [combinations2]
  | cons x xs ih =>
    simp only [combinations2, List.length_append, List.length_map, ih, List.length_cons]
    rw [Nat.choose_succ_succ, Nat.choose_one_right]

theorem two_mul_combinations2_length {α : Type} (l : List α) :
    2 * (combinations2 l).length = l.length * (l.length - 1) := by
  induction l with
  | nil => simp [combinations2]
  | cons x xs ih =>
    simp only [combinations2, List.length_append, List.length_map, List.length_cons]
    rw [Nat.add_sub_cancel]
    have key : xs.length * (xs.length - 1) + 2 * xs.length = (xs.length + 1) * xs.length := by
      cases hn : xs.length with
      | zero => simp
      | succ k => simp only [Nat.succ_sub_one]; ring
    omega

theorem mem_combinations2_iff {α : Type} {r : α → α → Prop}
    (hasymm : ∀ a b, r a b → ¬ r b a) (l : List α)
    (hl : List.Pairwise r l) (a b : α) :
    (a, b) ∈ combinations2 l ↔ a ∈ l ∧ b ∈ l ∧ r a b := by
  induction l with
  | nil => simp [combinations2]
  | cons x xs ih =>
    have hx : ∀ y ∈ xs, r x y := fun y hy => (List.pairwise_cons.mp hl).1 y hy
    have hxs : List.Pairwise r xs := (List.pairwise_cons.mp hl).2
    simp only [combinations2, List.mem_append, List.mem_map, List.mem_cons, ih hxs]
    constructor
    · rintro (⟨y, hy, heq⟩ | ⟨ha, hb, hab⟩)
      · cases heq
        exact ⟨Or.inl rfl, Or.inr hy, hx _ hy⟩
      · exact ⟨Or.inr ha, Or.inr hb, hab⟩
    · rintro ⟨ha | ha, hb | hb, hab⟩
      · rw [ha, hb] at hab; exact absurd hab (fun hc => hasymm x x hc hc)
      · exact Or.inl ⟨b, hb, by rw [ha]⟩
      · rw [hb] at hab; exact absurd (hx a ha) (hasymm a x hab)
      · exact Or.inr ⟨ha, hb, hab⟩

theorem combinations2_rel {α : Type} {r : α → α → Prop}
    (hasymm : ∀ a b, r a b → ¬ r b a) (l : List α)
    (hl : List.Pairwise r l) :
    ∀ p ∈ combinations2 l, r p.1 p.2 := by
  intro p hp
  obtain ⟨a, b⟩ := p
  exact ((mem_combinations2_iff hasymm l hl a b).mp hp).2.2

theorem combinations2_nodup {α : Type} {r : α → α → Prop}
    (hasymm : ∀ a b, r a b → ¬ r b a) (l : List α)
    (hl : List.Pairwise r l) : (combinations2 l).Nodup := by
  induction l with
  | nil => simp [combinations2]
  | cons x xs ih =>
    have hx : ∀ y ∈ xs, r x y := fun y hy => (List.pairwise_cons.mp hl).1 y hy
    have hxs : List.Pairwise r xs := (List.pairwise_cons.mp hl).2
    have hxsnd : xs.Nodup := hxs.imp fun hab => by
      intro he
      subst he
      exact hasymm _ _ hab hab
    simp only [combinations2]
    refine List.Nodup.append ?_ (ih hxs) ?_
    · exact List.Nodup.map (fun y z h => by simpa using congrArg Prod.snd h) hxsnd
    · intro p hp1 hp2
      obtain ⟨y, hy, heq⟩ := List.mem_map.mp hp1
      subst heq
      have hmem := ((mem_combinations2_iff hasymm xs hxs x y).mp hp2).1
      exact absurd (hx x hmem) (fun hc => hasymm x x hc hc)

theorem insertionSort_pairwise_py_lt (l : List String) (h : l.Nodup) :
    List.Pairwise py_lt (List.insertionSort py_le l) :=
  (List.sorted_insertionSort py_le l).imp₂ (fun a b hle hne => py_lt_of_le_of_ne a b hle hne)
    ((List.perm_insertionSort py_le l).symm.nodup h)

theorem insertionSort_eq_of_perm (l1 l2 : List String) (hp : l1.Perm l2) :
    List.insertionSort py_le l1 = List.insertionSort py_le l2 :=
  List.eq_of_perm_of_sorted
    ((List.perm_insertionSort _ l1).trans (hp.trans (List.perm_insertionSort _ l2).symm))
    (List.sorted_insertionSort _ l1) (List.sorted_insertionSort _ l2)

theorem generate_schedule_eq (l : List String) (hlen : 2 ≤ l.length) :
    generate_schedule l =
      group_into_rounds (combinations2 (List.insertionSort py_le l)) := by
  have hslen : (List.insertionSort py_le l).length = l.length :=
    (List.perm_insertionSort _ l).length_eq
  have hnot : ¬ (List.insertionSort py_le l).length < 2 := by omega
  simp only [generate_schedule, if_neg hnot]

/-- C1: for every list of at least two distinct player IDs,
`generate_schedule` produces matches whose player pairs are exactly the
C(n,2) unordered pairs of distinct players (each appearing exactly once,
oriented in ascending ID order), partitioned into rounds in which no
player appears twice, and the round/match structure is identical for
every input ordering of the same player set. -/
theorem C1_generate_schedule_round_robin (l1 l2 : List String)
    (hnd : l1.Nodup) (hlen : 2 ≤ l1.length) (hperm : l1.Perm l2) :
    generate_schedule l1 = generate_schedule l2
    ∧ (∀ a b : String,
        (a, b) ∈ (generate_schedule l1).flatten ↔ a ∈ l1 ∧ b ∈ l1 ∧ py_lt a b)
    ∧ (generate_schedule l1).flatten.Nodup
    ∧ (generate_schedule l1).flatten.length = l1.length.choose 2
    ∧ (∀ r ∈ generate_schedule l1, (round_players r).Nodup) := by
  have hgs := generate_schedule_eq l1 hlen
  have hsp : (List.insertionSort py_le l1).Perm l1 := List.perm_insertionSort _ l1
  have hlt := insertionSort_pairwise_py_lt l1 hnd
  have hjoin := group_into_rounds_join_perm (combinations2 (List.insertionSort py_le l1))
  refine ⟨?_, ?_, ?_, ?_, ?_⟩
  · unfold generate_schedule
    rw [insertionSort_eq_of_perm l1 l2 hperm]
  · intro a b
    rw [hgs, hjoin.mem_iff, mem_combinations2_iff py_lt_asymm _ hlt a b,
      hsp.mem_iff, hsp.mem_iff]
  · rw [hgs]
    exact hjoin.symm.nodup (combinations2_nodup py_lt_asymm _ hlt)
  · rw [hgs, hjoin.length_eq, combinations2_length, hsp.length_eq]
  · rw [hgs]
    exact group_into_rounds_round_nodup _
      (fun p hp => py_lt_ne p.1 p.2 (combinations2_rel py_lt_asymm _ hlt p hp))

theorem C1_witness :
    generate_schedule ["b", "a"] = generate_schedule ["a", "b"]
    ∧ ("a", "b") ∈ (generate_schedule ["b", "a"]).flatten
    ∧ (generate_schedule ["b", "a"]).flatten.length = (2 : Nat).choose 2 :=
  ⟨(C1_generate_schedule_round_robin ["b", "a"] ["a", "b"]
      (by decide) (by decide) (List.Perm.swap "a" "b" [])).1,
   ((C1_generate_schedule_round_robin ["b", "a"] ["a", "b"]
      (by decide) (by decide) (List.Perm.swap "a" "b" [])).2.1 "a" "b").mpr (by decide),
   (C1_generate_schedule_round_robin ["b", "a"] ["a", "b"]
      (by decide) (by decide) (List.Perm.swap "a" "b" [])).2.2.2.1⟩

theorem two_mul_flatten_length_le {α : Type} (L : List (List α)) (B : Nat)
    (h : ∀ r ∈ L, 2 * r.length ≤ B) :
    2 * L.flatten.length ≤ L.length * B := by
  induction L with
  | nil => simp
  | cons r L ih =>
    have h1 := h r (by simp)
    have h2 := ih fun q hq => h q (by simp [hq])
    simp only [List.flatten_cons, List.length_append, List.length_cons]
    have h3 : (L.length + 1) * B = L.length * B + B := by ring
    omega

/-- Every round the scheduler builds uses each of the n players at most
once, so it contains at most n/2 matches. -/
theorem generate_schedule_round_size_bound (l : List String)
    (hnd : l.Nodup) (hlen : 2 ≤ l.length) :
    ∀ r ∈ generate_schedule l, 2 * r.length ≤ l.length := by
  intro r hr
  have hgs := generate_schedule_eq l hlen
  have hsp : (List.insertionSort py_le l).Perm l := List.perm_insertionSort _ l
  have hlt := insertionSort_pairwise_py_lt l hnd
  rw [hgs] at hr
  have hnodup : (round_players r).Nodup :=
    group_into_rounds_round_nodup _
      (fun p hp => py_lt_ne p.1 p.2 (combinations2_rel py_lt_asymm _ hlt p hp)) r hr
  have hsub : round_players r ⊆ List.insertionSort py_le l := by
    intro x hx
    obtain ⟨p, hp, hx⟩ := (mem_round_players r x).mp hx
    have hpflat : p ∈ (group_into_rounds
        (combinations2 (List.insertionSort py_le l))).flatten :=
      List.mem_flatten.mpr ⟨r, hr, hp⟩
    have hpcomb := (group_into_rounds_join_perm _).mem_iff.mp hpflat
    obtain ⟨a, b⟩ := p
    have := (mem_combinations2_iff py_lt_asymm _ hlt a b).mp hpcomb
    rcases hx with hx | hx
    · simpa [hx] using this.1
    · simpa [hx] using this.2.1
  have hle : (round_players r).length ≤ (List.insertionSort py_le l).length :=
    (List.subperm_of_subset hnodup hsub).length_le
  rw [round_players_length, hsp.length_eq] at hle
  exact hle

/-- C3 (amended): the greedy packing keeps every player to at most one
match per round, so the number of rounds is at least the chromatic-index
lower bound (n-1 for even n, n for odd n); but it is not always equal to
it (see the counterexample with five players). -/
theorem C3_round_count_lower_bound (l : List String)
    (hnd : l.Nodup) (hlen : 2 ≤ l.length) :
    (∀ r ∈ generate_schedule l, (round_players r).Nodup)
    ∧ (l.length % 2 = 0 → l.length - 1 ≤ (generate_schedule l).length)
    ∧ (l.length % 2 = 1 → l.length ≤ (generate_schedule l).length) := by
  have hgs := generate_schedule_eq l hlen
  have hsp : (List.insertionSort py_le l).Perm l := List.perm_insertionSort _ l
  have hlt := insertionSort_pairwise_py_lt l hnd
  have hjoin := group_into_rounds_join_perm (combinations2 (List.insertionSort py_le l))
  have htot : 2 * (generate_schedule l).flatten.length = l.length * (l.length - 1) := by
    rw [hgs, hjoin.length_eq, two_mul_combinations2_length, hsp.length_eq]
  have hround := generate_schedule_round_size_bound l hnd hlen
  refine ⟨?_, ?_, ?_⟩
  · rw [hgs]
    exact group_into_rounds_round_nodup _
      (fun p hp => py_lt_ne p.1 p.2 (combinations2_rel py_lt_asymm _ hlt p hp))
  · intro _
    have hsum := two_mul_flatten_length_le (generate_schedule l) l.length hround
    rw [htot] at hsum
    have hmul : (l.length - 1) * l.length ≤ (generate_schedule l).length * l.length := by
      have : l.length * (l.length - 1) = (l.length - 1) * l.length := by ring
      omega
    exact Nat.le_of_mul_le_mul_right hmul (by omega)
  · intro hodd
    have hround2 : ∀ r ∈ generate_schedule l, 2 * r.length ≤ l.length - 1 := by
      intro r hr
      have := hround r hr
      omega
    have hsum := two_mul_flatten_length_le (generate_schedule l) (l.length - 1) hround2
    rw [htot] at hsum
    have hmul : l.length * (l.length - 1) ≤ (generate_schedule l).length * (l.length - 1) :=
      hsum
    exact Nat.le_of_mul_le_mul_right hmul (by omega)

theorem C3_witness :
    (∀ r ∈ generate_schedule ["a", "b", "c"], (round_players r).Nodup)
    ∧ 3 ≤ (generate_schedule ["a", "b", "c"]).length :=
  ⟨(C3_round_count_lower_bound ["a", "b", "c"] (by decide) (by decide)).1,
   (C3_round_count_lower_bound ["a", "b", "c"] (by decide) (by decide)).2.2 (by decide)⟩

/-- C3 counterexample: for the five players a,b,c,d,e the greedy
first-fit packing produces 7 rounds, strictly more than the chromatic
index 5 of K5, so the schedule is not a minimum-round partition. -/
theorem C3_counterexample :
    (generate_schedule ["a", "b", "c", "d", "e"]).length = 7
    ∧ (generate_schedule ["a", "b", "c", "d", "e"]).length ≠ 5 := by
  constructor <;> decide

/-! ## Standings engine (`src/league_manager/standings.py`) -/

/-- The per-player statistics accumulated by
`StandingsEngine.compute_standings` (the `player_stats` defaultdict
values). -/
structure PStats where
  points : Int
  wins : Nat
  draws : Nat
  losses : Nat
  matches_played : Nat

/-- The defaultdict initial value. -/
def zero_stats : PStats := ⟨0, 0, 0, 0, 0⟩

/-- One stored match result as consumed by `compute_standings`: the
`outcome` dict (player id to "win"/"draw"/"loss") and the `points` dict
(player id to per-player points), both insertion-ordered. -/
structure PyResult where
  outcome : List (String × String)
  points : List (String × Int)

/-- The loop body of `compute_standings`: update one player's
accumulated statistics from one outcome entry of one result. -/
def update_player_result (pts : List (String × Int)) (stats : List (String × PStats))
    (pid oc : String) : List (String × PStats) :=
  let s := (alist_get pid stats).getD zero_stats
  let s1 : PStats := { s with points := s.points + ((alist_get pid pts).getD 0),
                              matches_played := s.matches_played + 1 }
  let s2 : PStats :=
    if oc = "win" then { s1 with wins := s1.wins + 1 }
    else if oc = "draw" then { s1 with draws := s1.draws + 1 }
    else if oc = "loss" then { s1 with losses := s1.losses + 1 }
    else s1
  alist_set pid s2 stats

/-- Process all outcome entries of one result, in dict order. -/
def process_result (stats : List (String × PStats)) (r : PyResult) :
    List (String × PStats) :=
  r.outcome.foldl (fun st po => update_player_result r.points st po.1 po.2) stats

/-- The aggregation loop of `compute_standings` over all stored results. -/
def player_stats (results : List PyResult) : List (String × PStats) :=
  results.foldl process_result []

/-- Strict comparison of the numeric part `(-points, -wins, -draws)` of
the Python sort key used in `compute_standings`. -/
def stat_lt (s t : PStats) : Prop :=
  -s.points < -t.points ∨ (-s.points = -t.points ∧
    (-(s.wins : Int) < -(t.wins : Int) ∨ (-(s.wins : Int) = -(t.wins : Int) ∧
      -(s.draws : Int) < -(t.draws : Int))))

/-- Equality of the numeric part of the sort key. -/
def stat_eq (s t : PStats) : Prop :=
  -s.points = -t.points ∧ -(s.wins : Int) = -(t.wins : Int)
    ∧ -(s.draws : Int) = -(t.draws : Int)

instance stat_lt_dec : ∀ s t, Decidable (stat_lt s t) := fun s t =>
  inferInstanceAs (Decidable
    (-s.points < -t.points ∨ (-s.points = -t.points ∧
      (-(s.wins : Int) < -(t.wins : Int) ∨ (-(s.wins : Int) = -(t.wins : Int) ∧
        -(s.draws : Int) < -(t.draws : Int))))))

instance stat_eq_dec : ∀ s t, Decidable (stat_eq s t) := fun s t =>
  inferInstanceAs (Decidable
    (-s.points = -t.points ∧ -(s.wins : Int) = -(t.wins : Int)
      ∧ -(s.draws : Int) = -(t.draws : Int)))

/-- The comparison performed by Python's tuple key
`(-points, -wins, -draws, player_id)` in `compute_standings`:
lexicographic, with ascending player id as final tie-break. -/
def standings_le (e f : String × PStats) : Prop :=
  stat_lt e.2 f.2 ∨ (stat_eq e.2 f.2 ∧ py_le e.1 f.1)

/-- Strict version of `standings_le` (holds between entries with
distinct player ids, since the id fully breaks ties). -/
def entry_lt (e f : String × PStats) : Prop :=
  stat_lt e.2 f.2 ∨ (stat_eq e.2 f.2 ∧ py_lt e.1 f.1)

instance standings_le_dec : DecidableRel standings_le := fun e f =>
  inferInstanceAs (Decidable (stat_lt e.2 f.2 ∨ (stat_eq e.2 f.2 ∧ py_le e.1 f.1)))

instance entry_lt_dec : DecidableRel entry_lt := fun e f =>
  inferInstanceAs (Decidable (stat_lt e.2 f.2 ∨ (stat_eq e.2 f.2 ∧ py_lt e.1 f.1)))

instance : IsTotal (String × PStats) standings_le :=
  ⟨fun e f => by
    unfold standings_le
    by_cases h1 : stat_lt e.2 f.2
    · exact Or.inl (Or.inl h1)
    · by_cases h2 : stat_lt f.2 e.2
      · exact Or.inr (Or.inl h2)
      · have heq : stat_eq e.2 f.2 := by unfold stat_lt at h1 h2; unfold stat_eq; omega
        have heq2 : stat_eq f.2 e.2 := by unfold stat_eq at heq ⊢; omega
        rcases IsTotal.total (r := py_le) e.1 f.1 with h | h
        · exact Or.inl (Or.inr ⟨heq, h⟩)
        · exact Or.inr (Or.inr ⟨heq2, h⟩)⟩

instance : IsTrans (String × PStats) standings_le :=
  ⟨fun a b c hab hbc => by
    unfold standings_le at hab hbc ⊢
    rcases hab with h1 | ⟨e1, p1⟩
    · rcases hbc with h2 | ⟨e2, p2⟩
      · left; unfold stat_lt at h1 h2 ⊢; omega
      · left; unfold stat_lt at h1 ⊢; unfold stat_eq at e2; omega
    · rcases hbc with h2 | ⟨e2, p2⟩
      · left; unfold stat_lt at h2 ⊢; unfold stat_eq at e1; omega
      · refine Or.inr ⟨by unfold stat_eq at e1 e2 ⊢; omega, ?_⟩
        exact IsTrans.trans (r := py_le) _ _ _ p1 p2⟩

theorem entry_lt_of_le_of_fst_ne (e f : String × PStats)
    (hle : standings_le e f) (hne : e.1 ≠ f.1) : entry_lt e f := by
  unfold standings_le at hle
  unfold entry_lt
  rcases hle with h | ⟨heq, hpy⟩
  · exact Or.inl h
  · exact Or.inr ⟨heq, py_lt_of_le_of_ne _ _ hpy hne⟩

/-- One row of the rankings list built by `compute_standings`. -/
structure Ranking where
  rank : Nat
  player_id : String
  points : Int
  wins : Nat
  draws : Nat
  losses : Nat
  matches_played : Nat

/-- Build one ranking row from a rank and a stats entry, as in the
dicts appended by `compute_standings`. -/
def mk_ranking (k : Nat) (e : String × PStats) : Ranking :=
  ⟨k, e.1, e.2.points, e.2.wins, e.2.draws, e.2.losses, e.2.matches_played⟩

/-- Number the entries of a list with consecutive ranks starting at `k`
(the `enumerate(sorted_players, 1)` loop, and likewise the
`len(rankings) + 1` appends for the zero-result players). -/
def rank_from (k : Nat) : List (String × PStats) → List Ranking
  | [] => []
  | e :: rest => mk_ranking k e :: rank_from (k + 1) rest

/-- The rankings list produced by `StandingsEngine.compute_standings`:
aggregate the stored results, sort by the key
`(-points, -wins, -draws, player_id)`, number the rows from 1, then
append the registered players with no results sorted by id, ranks
continuing the sequence.  The surrounding dict (league id, timestamp)
is elided. -/
def compute_standings (results : List PyResult) (registered : List String) :
    List Ranking :=
  let stats := player_stats results
  let sorted_players := List.insertionSort standings_le stats
  let rankings := rank_from 1 sorted_players
  let without := registered.filter (fun pid => (alist_get pid stats).isNone)
  let zeros := (List.insertionSort py_le without).map (fun pid => (pid, zero_stats))
  rankings ++ rank_from (rankings.length + 1) zeros

/-- The strict order the spec describes for the standings rows:
points descending, then wins descending, then draws descending, then
player ID ascending. -/
def ranking_before (x y : Ranking) : Prop :=
  y.points < x.points
  ∨ (x.points = y.points ∧ (y.wins < x.wins
  ∨ (x.wins = y.wins ∧ (y.draws < x.draws
  ∨ (x.draws = y.draws ∧ py_lt x.player_id y.player_id)))))

theorem foldl_preserves {X A : Type} (P : A → Prop) (step : A → X → A)
    (hstep : ∀ a x, P a → P (step a x)) :
    ∀ (l : List X) (a : A), P a → P (l.foldl step a) := by
  intro l
  induction l with
  | nil => intro a h; simpa using h
  | cons x xs ih => intro a h; simpa using ih (step a x) (hstep a x h)

theorem alist_set_keys_mem {β : Type} (k x : String) (v : β) (m : List (String × β)) :
    x ∈ (alist_set k v m).map Prod.fst ↔ x = k ∨ x ∈ m.map Prod.fst := by
  induction m with
  | nil => simp [alist_set]
  | cons p rest ih =>
    obtain ⟨k1, v1⟩ := p
    by_cases hk : k = k1
    · subst hk
      simp only [alist_set, if_true, eq_self_iff_true, List.map_cons, List.mem_cons]
      tauto
    · simp only [alist_set, if_neg hk, List.map_cons, List.mem_cons, ih]
      tauto

theorem alist_set_keys_nodup {β : Type} (k : String) (v : β) (m : List (String × β))
    (h : (m.map Prod.fst).Nodup) : ((alist_set k v m).map Prod.fst).Nodup := by
  induction m with
  | nil => simp [alist_set]
  | cons p rest ih =>
    obtain ⟨k1, v1⟩ := p
    simp only [List.map_cons, List.nodup_cons] at h
    by_cases hk : k = k1
    · subst hk
      simp only [alist_set, if_true, eq_self_iff_true, List.map_cons, List.nodup_cons]
      exact h
    · simp only [alist_set, if_neg hk, List.map_cons, List.nodup_cons]
      refine ⟨?_, ih h.2⟩
      rw [alist_set_keys_mem]
      rintro (hh | hh)
      · exact hk hh.symm
      · exact h.1 hh

theorem update_player_result_keys_nodup (pts : List (String × Int))
    (stats : List (String × PStats)) (pid oc : String)
    (h : (stats.map Prod.fst).Nodup) :
    ((update_player_result pts stats pid oc).map Prod.fst).Nodup :=
  alist_set_keys_nodup pid _ stats h

theorem player_stats_keys_nodup (results : List PyResult) :
    ((player_stats results).map Prod.fst).Nodup := by
  unfold player_stats
  refine foldl_preserves (fun m => (m.map Prod.fst).Nodup) process_result ?_ results [] (by simp)
  intro m r hm
  unfold process_result
  exact foldl_preserves (fun m => (m.map Prod.fst).Nodup)
    (fun st po => update_player_result r.points st po.1 po.2)
    (fun a x ha => update_player_result_keys_nodup r.points a x.1 x.2 ha) r.outcome m hm

theorem pairwise_fst_ne_of_keys_nodup {β : Type} (m : List (String × β))
    (h : (m.map Prod.fst).Nodup) : m.Pairwise (fun e f => e.1 ≠ f.1) := by
  induction m with
  | nil => simp
  | cons p rest ih =>
    simp only [List.map_cons, List.nodup_cons] at h
    refine List.pairwise_cons.mpr ⟨?_, ih h.2⟩
    intro f hf heq
    exact h.1 (List.mem_map.mpr ⟨f, hf, heq.symm⟩)

theorem rank_from_length (k : Nat) (l : List (String × PStats)) :
    (rank_from k l).length = l.length := by
  induction l generalizing k with
  | nil => simp [rank_from]
  | cons e rest ih => simp [rank_from, ih]

theorem rank_from_append (k : Nat) (xs ys : List (String × PStats)) :
    rank_from k (xs ++ ys) = rank_from k xs ++ rank_from (k + xs.length) ys := by
  induction xs generalizing k with
  | nil => simp [rank_from]
  | cons e rest ih =>
    have h1 : (e :: rest) ++ ys = e :: (rest ++ ys) := rfl
    rw [h1]
    show mk_ranking k e :: rank_from (k + 1) (rest ++ ys)
        = (mk_ranking k e :: rank_from (k + 1) rest) ++ rank_from (k + (e :: rest).length) ys
    rw [ih (k + 1)]
    simp only [List.cons_append, List.length_cons]
    rw [show k + (rest.length + 1) = k + 1 + rest.length by omega]

theorem rank_from_get (k : Nat) (l : List (String × PStats)) (i : Nat)
    (h : i < (rank_from k l).length) :
    ((rank_from k l).get ⟨i, h⟩).rank = k + i := by
  induction l generalizing k i with
  | nil => simp [rank_from] at h
  | cons e rest ih =>
    cases i with
    | zero => simp [rank_from, mk_ranking]
    | succ j =>
      have hj : j < (rank_from (k + 1) rest).length := by
        simpa [rank_from] using h
      have hrec := ih (k + 1) j hj
      have hget : (rank_from k (e :: rest)).get ⟨j + 1, h⟩
          = (rank_from (k + 1) rest).get ⟨j, hj⟩ := rfl
      rw [hget, hrec]
      omega

theorem rank_from_map_pid (k : Nat) (l : List (String × PStats)) :
    (rank_from k l).map Ranking.player_id = l.map Prod.fst := by
  induction l generalizing k with
  | nil => simp [rank_from]
  | cons e rest ih => simp [rank_from, mk_ranking, ih]

theorem rank_from_pairwise {P : (String × PStats) → (String × PStats) → Prop}
    {Q : Ranking → Ranking → Prop}
    (hPQ : ∀ k1 k2 e f, P e f → Q (mk_ranking k1 e) (mk_ranking k2 f))
    (k : Nat) (l : List (String × PStats)) (h : l.Pairwise P) :
    (rank_from k l).Pairwise Q := by
  induction l generalizing k with
  | nil => simp [rank_from]
  | cons e rest ih =>
    obtain ⟨h1, h2⟩ := List.pairwise_cons.mp h
    refine List.pairwise_cons.mpr ⟨?_, ih (k + 1) h2⟩
    intro x hx
    obtain ⟨k2, f, hf, rfl⟩ : ∃ k2 f, f ∈ rest ∧ x = mk_ranking k2 f := by
      clear ih h h1 h2
      induction rest generalizing k with
      | nil => simp [rank_from] at hx
      | cons g gs ihg =>
        simp only [rank_from, List.mem_cons] at hx
        rcases hx with hx | hx
        · exact ⟨k + 1, g, by simp, hx⟩
        · obtain ⟨k2, f, hf, he⟩ := ihg (k + 1) hx
          exact ⟨k2, f, by simp [hf], he⟩
    exact hPQ k k2 e f (h1 f hf)

theorem rank_from_zero_fields (k : Nat) (w : List String) (x : Ranking)
    (hx : x ∈ rank_from k (w.map fun pid => (pid, zero_stats))) :
    x.points = 0 ∧ x.wins = 0 ∧ x.draws = 0 ∧ x.losses = 0 ∧ x.matches_played = 0 := by
  induction w generalizing k with
  | nil => simp [rank_from] at hx
  | cons pid rest ih =>
    simp only [List.map_cons, rank_from, List.mem_cons] at hx
    rcases hx with hx | hx
    · subst hx
      simp [mk_ranking, zero_stats]
    · exact ih (k + 1) hx

theorem entry_lt_ranking_before (k1 k2 : Nat) (e f : String × PStats)
    (h : entry_lt e f) : ranking_before (mk_ranking k1 e) (mk_ranking k2 f) := by
  unfold entry_lt stat_lt stat_eq at h
  unfold ranking_before mk_ranking
  simp only
  rcases h with (h | ⟨h1, h | ⟨h2, h3⟩⟩) | ⟨⟨q1, q2, q3⟩, hpy⟩
  · exact Or.inl (by omega)
  · exact Or.inr ⟨by omega, Or.inl (by omega)⟩
  · exact Or.inr ⟨by omega, Or.inr ⟨by omega, Or.inl (by omega)⟩⟩
  · exact Or.inr ⟨by omega, Or.inr ⟨by omega, Or.inr ⟨by omega, hpy⟩⟩⟩

/-- C2: the rankings list of `compute_standings` starts with the
players that have results, sorted strictly by points descending, wins
descending, draws descending, player ID ascending, followed by the
registered players without results sorted by ID; each row's rank is its
1-based position, so no two players share a rank; rows in the appended
section carry all-zero statistics. -/
theorem C2_compute_standings_total_order (results : List PyResult)
    (registered : List String) (hreg : registered.Nodup) :
    (∀ i (h : i < (compute_standings results registered).length),
        ((compute_standings results registered).get ⟨i, h⟩).rank = i + 1)
    ∧ (∀ i j (hi : i < (compute_standings results registered).length)
        (hj : j < (compute_standings results registered).length), i ≠ j →
        ((compute_standings results registered).get ⟨i, hi⟩).rank
          ≠ ((compute_standings results registered).get ⟨j, hj⟩).rank)
    ∧ List.Pairwise ranking_before
        ((compute_standings results registered).take (player_stats results).length)
    ∧ (((compute_standings results registered).take
          (player_stats results).length).map Ranking.player_id).Perm
        ((player_stats results).map Prod.fst)
    ∧ List.Pairwise (fun x y => py_lt x.player_id y.player_id)
        ((compute_standings results registered).drop (player_stats results).length)
    ∧ ((compute_standings results registered).drop
          (player_stats results).length).map Ranking.player_id
        = List.insertionSort py_le
            (registered.filter fun pid => (alist_get pid (player_stats results)).isNone)
    ∧ ∀ x ∈ (compute_standings results registered).drop (player_stats results).length,
        x.points = 0 ∧ x.wins = 0 ∧ x.draws = 0 ∧ x.losses = 0 ∧ x.matches_played = 0 := by
  have hkeys := player_stats_keys_nodup results
  have hsortperm := List.perm_insertionSort standings_le (player_stats results)
  have hsplen : (List.insertionSort standings_le (player_stats results)).length
      = (player_stats results).length := hsortperm.length_eq
  have hspkeys : ((List.insertionSort standings_le (player_stats results)).map
      Prod.fst).Nodup := ((hsortperm.map Prod.fst).symm).nodup hkeys
  have hsorted : List.Pairwise standings_le
      (List.insertionSort standings_le (player_stats results)) :=
    List.sorted_insertionSort standings_le (player_stats results)
  have hstrict : List.Pairwise entry_lt
      (List.insertionSort standings_le (player_stats results)) :=
    hsorted.imp₂ (fun e f hle hne => entry_lt_of_le_of_fst_ne e f hle hne)
      (pairwise_fst_ne_of_keys_nodup _ hspkeys)
  have hwithoutnd : (registered.filter fun pid =>
      (alist_get pid (player_stats results)).isNone).Nodup := hreg.filter _
  have hzsorted : List.Pairwise py_lt (List.insertionSort py_le
      (registered.filter fun pid => (alist_get pid (player_stats results)).isNone)) :=
    insertionSort_pairwise_py_lt _ hwithoutnd
  have hrankslen : (rank_from 1
      (List.insertionSort standings_le (player_stats results))).length
      = (player_stats results).length := by rw [rank_from_length, hsplen]
  have hC : compute_standings results registered
      = rank_from 1 (List.insertionSort standings_le (player_stats results))
        ++ rank_from ((rank_from 1
            (List.insertionSort standings_le (player_stats results))).length + 1)
          ((List.insertionSort py_le (registered.filter fun pid =>
              (alist_get pid (player_stats results)).isNone)).map
            fun pid => (pid, zero_stats)) := rfl
  have htake : (compute_standings results registered).take
      (player_stats results).length
      = rank_from 1 (List.insertionSort standings_le (player_stats results)) := by
    rw [hC, ← hrankslen, List.take_left]
  have hdrop : (compute_standings results registered).drop
      (player_stats results).length
      = rank_from ((rank_from 1
            (List.insertionSort standings_le (player_stats results))).length + 1)
          ((List.insertionSort py_le (registered.filter fun pid =>
              (alist_get pid (player_stats results)).isNone)).map
            fun pid => (pid, zero_stats)) := by
    rw [hC, ← hrankslen, List.drop_left]
  have hfull : compute_standings results registered
      = rank_from 1 ((List.insertionSort standings_le (player_stats results))
          ++ ((List.insertionSort py_le (registered.filter fun pid =>
              (alist_get pid (player_stats results)).isNone)).map
            fun pid => (pid, zero_stats))) := by
    rw [hC, rank_from_append, rank_from_length,
      Nat.add_comm 1 (List.insertionSort standings_le (player_stats results)).length]
  have hrank : ∀ i (h : i < (compute_standings results registered).length),
      ((compute_standings results registered).get ⟨i, h⟩).rank = i + 1 := by
    intro i h
    have h2 : i < (rank_from 1 ((List.insertionSort standings_le (player_stats results))
        ++ ((List.insertionSort py_le (registered.filter fun pid =>
            (alist_get pid (player_stats results)).isNone)).map
          fun pid => (pid, zero_stats)))).length := by rw [← hfull]; exact h
    calc ((compute_standings results registered).get ⟨i, h⟩).rank
        = ((rank_from 1 ((List.insertionSort standings_le (player_stats results))
            ++ ((List.insertionSort py_le (registered.filter fun pid =>
                (alist_get pid (player_stats results)).isNone)).map
              fun pid => (pid, zero_stats)))).get ⟨i, h2⟩).rank := by
          congr 1
          exact List.get_of_eq hfull ⟨i, h⟩
      _ = 1 + i := rank_from_get _ _ i h2
      _ = i + 1 := by omega
  refine ⟨hrank, ?_, ?_, ?_, ?_, ?_, ?_⟩
  · intro i j hi hj hne
    rw [hrank i hi, hrank j hj]
    omega
  · rw [htake]
    exact rank_from_pairwise entry_lt_ranking_before 1 _ hstrict
  · rw [htake, rank_from_map_pid]
    exact hsortperm.map Prod.fst
  · rw [hdrop]
    refine rank_from_pairwise (P := fun e f => py_lt e.1 f.1) ?_ _ _ ?_
    · intro k1 k2 e f hef
      simpa [mk_ranking] using hef
    · exact (List.pairwise_map).mpr hzsorted
  · rw [hdrop, rank_from_map_pid]
    have hmf : ∀ l : List String, ((l.map fun pid => (pid, zero_stats)).map Prod.fst) = l := by
      intro l
      induction l with
      | nil => rfl
      | cons x xs ih => simp [ih]
    exact hmf _
  · rw [hdrop]
    intro x hx
    exact rank_from_zero_fields _ _ x hx

theorem C2_witness :
    ((compute_standings
        [⟨[("bob", "loss"), ("alice", "win")], [("alice", 3), ("bob", 0)]⟩]
        ["carol", "alice", "bob"]).get ⟨0, by decide⟩).rank = 1 :=
  (C2_compute_standings_total_order
    [⟨[("bob", "loss"), ("alice", "win")], [("alice", 3), ("bob", 0)]⟩]
    ["carol", "alice", "bob"] (by decide)).1 0 (by decide)

/-! ## Errors (`src/common/errors.py`), as far as the claims need them -/

/-- The error values raised by the handlers modelled below
(`ValidationError`, `AuthenticationError`, `AuthorizationError`,
`OperationalError(code, ...)` of `errors.py`). -/
inductive LMError : Type
  | validation (message field : String)
  | authentication (message : String)
  | authorization (message expected actual : String)
  | operational (code : Nat) (message : String)
deriving DecidableEq

/-! ## Auth Manager (`src/common/auth.py`)

The mutable `AuthManager` state is threaded explicitly: `tokens` is the
`_tokens` dict (token to `{agent_id, agent_type}`), `agent_tokens` the
`_agent_tokens` dict (agent id to token).  Agent types are carried as
their string values, as in the stored dicts (`agent_type.value`);
`str(uuid.uuid4())` is modelled by a caller-supplied fresh string. -/

structure AuthState where
  tokens : List (String × (String × String))
  agent_tokens : List (String × String)

/-- `AuthManager.issue_token`: return the already-issued token of the
agent if there is one, otherwise bind a new token both ways. -/
def issue_token (st : AuthState) (agent_id agent_type fresh : String) :
    String × AuthState :=
  match alist_get agent_id st.agent_tokens with
  | some t => (t, st)
  | none =>
    (fresh,
     { tokens := alist_set fresh (agent_id, agent_type) st.tokens,
       agent_tokens := alist_set agent_id fresh st.agent_tokens })

/-- `AuthManager.validate_token`: look the token up, failing with
AuthenticationError when unknown. -/
def validate_token (st : AuthState) (token : String) :
    Except LMError (String × String) :=
  match alist_get token st.tokens with
  | none => .error (.authentication "Invalid or expired token")
  | some info => .ok info

/-- `AuthManager.verify_sender`: reconstruct the expected sender string
from the token's bound identity and fail with AuthorizationError when
the claimed sender differs. -/
def verify_sender (st : AuthState) (token sender : String) :
    Except LMError Unit :=
  match validate_token st token with
  | .error e => .error e
  | .ok (agent_id, agent_type) =>
    let expected_sender :=
      if agent_type = "league_manager" then "league_manager"
      else agent_type ++ ":" ++ agent_id
    if sender ≠ expected_sender then
      .error (.authorization
        ("Sender mismatch: expected " ++ expected_sender ++ ", got " ++ sender)
        expected_sender sender)
    else .ok ()

/-- The canonical sender string of a bound identity, as the spec
describes it. -/
def canonical_sender (agent_type agent_id : String) : String :=
  if agent_type = "league_manager" then "league_manager"
  else agent_type ++ ":" ++ agent_id

/-- C7: with a valid token, `verify_sender` succeeds exactly on the
canonical sender reconstructed from the bound identity and fails with
AuthorizationError on every other claimed sender; an unknown token fails
with AuthenticationError for every claimed sender. -/
theorem C7_verify_sender_iff (st : AuthState) (token : String) :
    (∀ agent_id agent_type sender,
        alist_get token st.tokens = some (agent_id, agent_type) →
        ((verify_sender st token sender = .ok ()
            ↔ sender = canonical_sender agent_type agent_id)
          ∧ (sender ≠ canonical_sender agent_type agent_id →
              verify_sender st token sender
                = .error (.authorization
                    ("Sender mismatch: expected "
                      ++ canonical_sender agent_type agent_id ++ ", got " ++ sender)
                    (canonical_sender agent_type agent_id) sender))))
    ∧ (alist_get token st.tokens = none →
        ∀ sender, verify_sender st token sender
          = .error (.authentication "Invalid or expired token")) := by
  constructor
  · intro agent_id agent_type sender hbound
    have hv : validate_token st token = .ok (agent_id, agent_type) := by
      unfold validate_token
      rw [hbound]
    constructor
    · unfold verify_sender
      rw [hv]
      unfold canonical_sender
      by_cases hs : sender
          = (if agent_type = "league_manager" then "league_manager"
             else agent_type ++ ":" ++ agent_id)
      · simp [hs]
      · simp [hs]
    · intro hs
      unfold verify_sender
      rw [hv]
      unfold canonical_sender at hs ⊢
      simp [hs]
  · intro hnone sender
    unfold verify_sender validate_token
    rw [hnone]

theorem C7_witness :
    verify_sender ⟨[("tok1", ("r1", "referee"))], [("r1", "tok1")]⟩ "tok1" "referee:r1"
      = .ok ()
    ∧ verify_sender ⟨[("tok1", ("r1", "referee"))], [("r1", "tok1")]⟩ "tok1" "referee:r2"
      = .error (.authorization "Sender mismatch: expected referee:r1, got referee:r2"
          "referee:r1" "referee:r2")
    ∧ verify_sender ⟨[("tok1", ("r1", "referee"))], [("r1", "tok1")]⟩ "tok9" "referee:r1"
      = .error (.authentication "Invalid or expired token") :=
  ⟨((C7_verify_sender_iff ⟨[("tok1", ("r1", "referee"))], [("r1", "tok1")]⟩ "tok1").1
      "r1" "referee" "referee:r1" (by decide)).1.mpr (by decide),
   by
    have := ((C7_verify_sender_iff ⟨[("tok1", ("r1", "referee"))], [("r1", "tok1")]⟩
        "tok1").1 "r1" "referee" "referee:r2" (by decide)).2 (by decide)
    simpa [canonical_sender] using this,
   (C7_verify_sender_iff ⟨[("tok1", ("r1", "referee"))], [("r1", "tok1")]⟩ "tok9").2
      (by decide) "referee:r1"⟩

/-- C8: issuing a token twice for the same agent id returns the token
of the first call and leaves the state unchanged, whatever agent type or
fresh uuid the second call uses. -/
theorem C8_issue_token_idempotent (st : AuthState)
    (agent_id ty1 ty2 f1 f2 : String) :
    issue_token (issue_token st agent_id ty1 f1).2 agent_id ty2 f2
      = ((issue_token st agent_id ty1 f1).1, (issue_token st agent_id ty1 f1).2) := by
  unfold issue_token
  cases h : alist_get agent_id st.agent_tokens with
  | some t => simp [h]
  | none => simp [h, alist_get_set_self]

/-! ## League lifecycle state machine (`src/league_manager/state.py`) -/

/-- `LeagueStatus` of `state.py`. -/
inductive LeagueStatus : Type
  | INIT
  | REGISTRATION
  | SCHEDULING
  | ACTIVE
  | COMPLETED
deriving DecidableEq

/-- The `valid_transitions` table inside `LeagueState.transition_to`. -/
def valid_transitions : LeagueStatus → List LeagueStatus
  | .INIT => [.REGISTRATION]
  | .REGISTRATION => [.SCHEDULING]
  | .SCHEDULING => [.ACTIVE]
  | .ACTIVE => [.COMPLETED]
  | .COMPLETED => []

/-- The in-memory `LeagueState` (its `league_id` and `_status`
fields). -/
structure LeagueState where
  league_id : String
  status : LeagueStatus

/-- The persisted league rows touched by
`LeagueDatabase.update_league_status` (league id to status column). -/
def LeaguesTable : Type := List (String × LeagueStatus)

/-- `LeagueState.transition_to`: validate the requested transition
against the table; on success persist the new status and update the
in-memory state and return `True`; otherwise log and return `False`,
touching nothing.  The Python returns a `bool` and never raises. -/
def transition_to (st : LeagueState) (db : LeaguesTable)
    (new_status : LeagueStatus) : Bool × LeagueState × LeaguesTable :=
  if new_status ∈ valid_transitions st.status then
    (true, { st with status := new_status },
     alist_update st.league_id (fun _ => new_status) db)
  else
    (false, st, db)

/-- C6: `transition_to` succeeds exactly on the four forward edges and
on every other request returns `False` (it never throws, being a total
function) leaving the in-memory state and the persisted table
unchanged. -/
theorem C6_transition_to_exact (st : LeagueState) (db : LeaguesTable)
    (ns : LeagueStatus) :
    ((transition_to st db ns).1 = true
      ↔ ((st.status = .INIT ∧ ns = .REGISTRATION)
        ∨ (st.status = .REGISTRATION ∧ ns = .SCHEDULING)
        ∨ (st.status = .SCHEDULING ∧ ns = .ACTIVE)
        ∨ (st.status = .ACTIVE ∧ ns = .COMPLETED)))
    ∧ ((transition_to st db ns).1 = false →
        (transition_to st db ns).2 = (st, db)) := by
  obtain ⟨lid, status⟩ := st
  cases status <;> cases ns <;>
    simp [transition_to, valid_transitions]

/-! ## Persistence rows and the match-result handler
(`src/common/persistence.py`, `src/league_manager/server.py`) -/

/-- One row of the `matches` table (minus its primary key). -/
structure MatchRow where
  round_id : String
  referee_id : Option String
  game_type : String
  players : List String
  status : String
  assigned_at : Option String
deriving DecidableEq

/-- One row of the `match_results` table, keyed by its UNIQUE
`match_id` column in the database model below. -/
structure ResultRow where
  result_id : String
  outcome : List (String × String)
  points : List (String × Int)
  game_metadata : Option String
  reported_at : String
deriving DecidableEq

/-- The slice of the SQLite database the match-result handler touches:
the `matches` table keyed by `match_id` and the `match_results` table
keyed by its unique `match_id` column. -/
structure DB where
  match_rows : List (String × MatchRow)
  result_rows : List (String × ResultRow)
deriving DecidableEq

/-- `LeagueDatabase.get_match`. -/
def get_match (db : DB) (match_id : String) : Option MatchRow :=
  alist_get match_id db.match_rows

/-- `LeagueDatabase.get_result` (SELECT by the unique `match_id`). -/
def get_result (db : DB) (match_id : String) : Option ResultRow :=
  alist_get match_id db.result_rows

/-- `LeagueDatabase.store_result` (INSERT of a new result row). -/
def store_result (db : DB) (result_id match_id : String)
    (outcome : List (String × String)) (points : List (String × Int))
    (game_metadata : Option String) (reported_at : String) : DB :=
  { db with result_rows :=
      db.result_rows ++ [(match_id, ⟨result_id, outcome, points, game_metadata, reported_at⟩)] }

/-- `LeagueDatabase.update_match_status` (UPDATE of the status column). -/
def update_match_status (db : DB) (match_id status : String) : DB :=
  { db with match_rows :=
      alist_update match_id (fun m => { m with status := status }) db.match_rows }

/-- The payload of a MATCH_RESULT_REPORT as read by the handler:
`payload.get('outcome', {})`, `payload.get('points', {})`,
`payload.get('game_metadata')`. -/
structure ResultPayload where
  outcome : Option (List (String × String))
  points : Option (List (String × Int))
  game_metadata : Option String

/-- `LeagueManagerServer._handle_match_result` (server.py lines
224-264): validate the envelope's match id, reject a missing match or a
duplicate result, store the result row (outcome and points defaulting
to empty dicts), mark the match COMPLETED, then run the rest of the
handler.  The standings republication and the all-matches-complete
check that follow (lines 265-293) are abstracted as the `rest`
continuation so that the state handed to them is explicit; an error it
raises propagates.  `result-{uuid4()}` and `utc_now()` are the
caller-supplied `result_id` and `ts`. -/
def handle_match_result (rest : DB → DB × Except LMError Unit) (db : DB)
    (env_match_id : Option String) (payload : ResultPayload)
    (result_id ts : String) : DB × Except LMError String :=
  match env_match_id with
  | none => (db, .error (.validation "Missing match_id in envelope" "match_id"))
  | some match_id =>
    match get_match db match_id with
    | none => (db, .error (.validation ("Unknown match_id: " ++ match_id) "match_id"))
    | some _ =>
      match get_result db match_id with
      | some _ =>
        (db, .error (.validation
          ("Result already reported for match " ++ match_id) "match_id"))
      | none =>
        let outcome := payload.outcome.getD []
        let points := payload.points.getD []
        let db1 := store_result db result_id match_id outcome points
          payload.game_metadata ts
        let db2 := update_match_status db1 match_id "COMPLETED"
        match rest db2 with
        | (db3, .ok _) => (db3, .ok match_id)
        | (db3, .error e) => (db3, .error e)

/-- C5: a second MATCH_RESULT_REPORT for a match that already has a
stored result fails with the duplicate-result validation error, the
database (hence the stored result and the match row) is untouched, and
the rest of the handler (standings republication) never runs, whatever
it would do. -/
theorem C5_duplicate_result_rejected (rest : DB → DB × Except LMError Unit)
    (db : DB) (match_id : String) (payload : ResultPayload)
    (result_id ts : String) (m : MatchRow) (r : ResultRow)
    (hm : get_match db match_id = some m)
    (hr : get_result db match_id = some r) :
    handle_match_result rest db (some match_id) payload result_id ts
      = (db, .error (.validation
          ("Result already reported for match " ++ match_id) "match_id"))
    ∧ get_result (handle_match_result rest db (some match_id) payload result_id ts).1
        match_id = some r
    ∧ get_match (handle_match_result rest db (some match_id) payload result_id ts).1
        match_id = some m := by
  have h : handle_match_result rest db (some match_id) payload result_id ts
      = (db, .error (.validation
          ("Result already reported for match " ++ match_id) "match_id")) := by
    simp only [handle_match_result, hm, hr]
  exact ⟨h, by rw [h]; exact hr, by rw [h]; exact hm⟩

theorem C5_witness :
    handle_match_result (fun d => (d, .ok ()))
        ⟨[("m1", ⟨"rd1", none, "tic_tac_toe", ["alice", "bob"], "COMPLETED", none⟩)],
         [("m1", ⟨"res1", [("alice", "win"), ("bob", "loss")],
            [("alice", 3), ("bob", 0)], none, "t0"⟩)]⟩
        (some "m1") ⟨none, none, none⟩ "res2" "t1"
      = (⟨[("m1", ⟨"rd1", none, "tic_tac_toe", ["alice", "bob"], "COMPLETED", none⟩)],
          [("m1", ⟨"res1", [("alice", "win"), ("bob", "loss")],
             [("alice", 3), ("bob", 0)], none, "t0"⟩)]⟩,
         .error (.validation "Result already reported for match m1" "match_id")) :=
  (C5_duplicate_result_rejected (fun d => (d, .ok ()))
    ⟨[("m1", ⟨"rd1", none, "tic_tac_toe", ["alice", "bob"], "COMPLETED", none⟩)],
     [("m1", ⟨"res1", [("alice", "win"), ("bob", "loss")],
        [("alice", 3), ("bob", 0)], none, "t0"⟩)]⟩
    "m1" ⟨none, none, none⟩ "res2" "t1"
    ⟨"rd1", none, "tic_tac_toe", ["alice", "bob"], "COMPLETED", none⟩
    ⟨"res1", [("alice", "win"), ("bob", "loss")], [("alice", 3), ("bob", 0)], none, "t0"⟩
    (by decide) (by decide)).1

/-- C10: for a report on an existing match with no prior result, the
handler performs no validation of the outcome/points content: with both
fields absent they default to empty dicts, the result row is inserted
and the match set to COMPLETED, and only then is the remainder of the
handler (the standings publication) applied, to exactly that updated
state. -/
theorem C10_result_stored_before_publish (rest : DB → DB × Except LMError Unit)
    (db : DB) (match_id : String) (payload : ResultPayload)
    (result_id ts : String) (m : MatchRow)
    (hm : get_match db match_id = some m)
    (hr : get_result db match_id = none)
    (ho : payload.outcome = none) (hp : payload.points = none) :
    get_result (update_match_status
        (store_result db result_id match_id [] [] payload.game_metadata ts)
        match_id "COMPLETED") match_id
      = some ⟨result_id, [], [], payload.game_metadata, ts⟩
    ∧ get_match (update_match_status
        (store_result db result_id match_id [] [] payload.game_metadata ts)
        match_id "COMPLETED") match_id
      = some { m with status := "COMPLETED" }
    ∧ handle_match_result rest db (some match_id) payload result_id ts
      = (let db2 := update_match_status
            (store_result db result_id match_id [] [] payload.game_metadata ts)
            match_id "COMPLETED"
         match rest db2 with
         | (db3, .ok _) => (db3, .ok match_id)
         | (db3, .error e) => (db3, .error e)) := by
  refine ⟨?_, ?_, ?_⟩
  · unfold get_result at hr ⊢
    show alist_get match_id
        (db.result_rows ++ [(match_id, ⟨result_id, [], [], payload.game_metadata, ts⟩)])
      = some ⟨result_id, [], [], payload.game_metadata, ts⟩
    exact alist_get_append_of_none match_id _ db.result_rows hr
  · unfold get_match at hm ⊢
    show alist_get match_id
        (alist_update match_id (fun m => { m with status := "COMPLETED" }) db.match_rows)
      = some { m with status := "COMPLETED" }
    rw [alist_get_update_self, hm]
    rfl
  · simp only [handle_match_result, hm, hr, ho, hp, Option.getD_none]

theorem C10_witness :
    get_result (update_match_status
        (store_result
          ⟨[("m1", ⟨"rd1", none, "tic_tac_toe", ["alice", "bob"], "PENDING", none⟩)], []⟩
          "res1" "m1" [] [] none "t1")
        "m1" "COMPLETED") "m1"
      = some ⟨"res1", [], [], none, "t1"⟩
    ∧ get_match (update_match_status
        (store_result
          ⟨[("m1", ⟨"rd1", none, "tic_tac_toe", ["alice", "bob"], "PENDING", none⟩)], []⟩
          "res1" "m1" [] [] none "t1")
        "m1" "COMPLETED") "m1"
      = some ⟨"rd1", none, "tic_tac_toe", ["alice", "bob"], "COMPLETED", none⟩ :=
  ⟨(C10_result_stored_before_publish (fun d => (d, .ok ()))
      ⟨[("m1", ⟨"rd1", none, "tic_tac_toe", ["alice", "bob"], "PENDING", none⟩)], []⟩
      "m1" ⟨none, none, none⟩ "res1" "t1"
      ⟨"rd1", none, "tic_tac_toe", ["alice", "bob"], "PENDING", none⟩
      (by decide) (by decide) rfl rfl).1,
   (C10_result_stored_before_publish (fun d => (d, .ok ()))
      ⟨[("m1", ⟨"rd1", none, "tic_tac_toe", ["alice", "bob"], "PENDING", none⟩)], []⟩
      "m1" ⟨none, none, none⟩ "res1" "t1"
      ⟨"rd1", none, "tic_tac_toe", ["alice", "bob"], "PENDING", none⟩
      (by decide) (by decide) rfl rfl).2.1⟩

/-! ## Match Assigner (`src/league_manager/match_assigner.py`)

The tables it touches: `matches` (updated), `rounds` (joined for the
league filter), `referees` and `players` (read).  Network delivery
(`http_client.send_request`) is abstracted as a boolean oracle from the
referee endpoint URL and the match id; `utc_now()` is the caller's
`ts`. -/

/-- One row of the `referees` table (minus its primary key). -/
structure RefRow where
  league_id : String
  status : String
  endpoint_url : Option String
deriving DecidableEq

/-- The database slice used by `MatchAssigner`. -/
structure ADB where
  match_rows : List (String × MatchRow)
  rounds : List (String × String)
  referees : List (String × RefRow)
deriving DecidableEq

/-- `LeagueDatabase.get_pending_matches`: PENDING matches of rounds of
the league (the SQL join with `rounds`). -/
def get_pending_matches (db : ADB) (league_id : String) :
    List (String × MatchRow) :=
  db.match_rows.filter fun p =>
    decide (p.2.status = "PENDING"
      ∧ alist_get p.2.round_id db.rounds = some league_id)

/-- `LeagueDatabase.get_all_referees` restricted to one league. -/
def get_all_referees (db : ADB) (league_id : String) : List (String × RefRow) :=
  db.referees.filter fun p => decide (p.2.league_id = league_id)

/-- `LeagueDatabase.assign_match`: UPDATE setting referee, status
ASSIGNED and the assignment timestamp. -/
def assign_match_db (db : ADB) (match_id referee_id ts : String) : ADB :=
  { db with
      match_rows := alist_update match_id
        (fun m => { m with
            referee_id := some referee_id
            status := "ASSIGNED"
            assigned_at := some ts })
        db.match_rows }

/-- The assignment info dict returned by `MatchAssigner.assign_match`. -/
structure AssignInfo where
  match_id : String
  referee_id : String
  round_id : String
  game_type : String
  players : List String
  assigned_at : String
deriving DecidableEq

/-- `MatchAssigner.assign_match`: persist the assignment FIRST, then
refetch the match, resolve the referee endpoint, and attempt delivery;
any failure after the persist raises OperationalError, which the new
database state survives.  Error codes 4014/4020/5009 are
INVALID_MATCH_ID, INVALID_REFEREE_ID and COMMUNICATION_ERROR of
`errors.py`. -/
def assign_match (db : ADB) (deliver : String → String → Bool)
    (match_id referee_id game_type : String) (players : List String)
    (ts : String) : ADB × Except LMError AssignInfo :=
  let db1 := assign_match_db db match_id referee_id ts
  match alist_get match_id db1.match_rows with
  | none => (db1, .error (.operational 4014 ("Match not found: " ++ match_id)))
  | some m =>
    match alist_get referee_id db1.referees with
    | none => (db1, .error (.operational 4020
        ("Referee " ++ referee_id ++ " not found or has no endpoint URL")))
    | some r =>
      match r.endpoint_url with
      | none => (db1, .error (.operational 4020
          ("Referee " ++ referee_id ++ " not found or has no endpoint URL")))
      | some url =>
        if deliver url match_id then
          (db1, .ok ⟨match_id, referee_id, m.round_id, game_type, players,
            m.assigned_at.getD ts⟩)
        else
          (db1, .error (.operational 5009 "Failed to send assignment to referee"))

/-- The `for match in pending_matches` loop of
`MatchAssigner.assign_pending_matches`: each match goes to the next
active referee round-robin (the index advances only on success, as in
the source); an OperationalError from one assignment is caught and the
loop continues, the failed match left out of the returned list. -/
def assign_loop (deliver : String → String → Bool)
    (active : List (String × RefRow)) (ts : String) :
    ADB → List (String × MatchRow) → Nat → ADB × List AssignInfo
  | db, [], _ => (db, [])
  | db, (mid, m) :: rest, idx =>
    let ref := active.getD (idx % active.length) ("", ⟨"", "", none⟩)
    match assign_match db deliver mid ref.1 m.game_type m.players ts with
    | (db1, .ok info) =>
      let s := assign_loop deliver active ts db1 rest (idx + 1)
      (s.1, info :: s.2)
    | (db1, .error _) =>
      assign_loop deliver active ts db1 rest idx

/-- `MatchAssigner.assign_pending_matches`: nothing to do without
pending matches or without ACTIVE referees; otherwise run the loop from
referee index 0. -/
def assign_pending_matches (db : ADB) (deliver : String → String → Bool)
    (league_id ts : String) : ADB × List AssignInfo :=
  let pending := get_pending_matches db league_id
  if pending.isEmpty then (db, [])
  else
    let active := (get_all_referees db league_id).filter
      fun p => decide (p.2.status = "ACTIVE")
    if active.isEmpty then (db, [])
    else assign_loop deliver active ts db pending 0

theorem alist_get_of_mem_of_nodup {β : Type} (m : List (String × β))
    (h : (m.map Prod.fst).Nodup) (k : String) (v : β) (hkv : (k, v) ∈ m) :
    alist_get k m = some v := by
  induction m with
  | nil => simp at hkv
  | cons p rest ih =>
    obtain ⟨k1, v1⟩ := p
    simp only [List.map_cons, List.nodup_cons] at h
    rcases List.mem_cons.mp hkv with hkv1 | hkv2
    · cases hkv1
      simp [alist_get]
    · have hk : k ≠ k1 := by
        intro he
        subst he
        exact h.1 (List.mem_map.mpr ⟨(k, v), hkv2, rfl⟩)
      simp only [alist_get, if_neg hk]
      exact ih h.2 hkv2

theorem list_getD_mem {β : Type} (l : List β) (n : Nat) (d : β)
    (hn : n < l.length) : l.getD n d ∈ l := by
  induction l generalizing n with
  | nil => simp at hn
  | cons x xs ih =>
    cases n with
    | zero => simp [List.getD]
    | succ j =>
      have := ih j (by simpa using hn)
      simp [List.getD] at this ⊢
      exact Or.inr this

theorem assign_match_fst (db : ADB) (deliver : String → String → Bool)
    (match_id referee_id game_type : String) (players : List String) (ts : String) :
    (assign_match db deliver match_id referee_id game_type players ts).1
      = assign_match_db db match_id referee_id ts := by
  simp only [assign_match]
  split
  · rfl
  · split
    · rfl
    · split
      · rfl
      · split
        · rfl
        · rfl

theorem assign_match_ok_spec (db db1 : ADB) (deliver : String → String → Bool)
    (match_id referee_id game_type : String) (players : List String) (ts : String)
    (info : AssignInfo)
    (h : assign_match db deliver match_id referee_id game_type players ts
        = (db1, .ok info)) :
    info.match_id = match_id ∧ info.referee_id = referee_id
    ∧ ∃ row url, alist_get referee_id db.referees = some row
        ∧ row.endpoint_url = some url ∧ deliver url match_id = true := by
  have hrefs : (assign_match_db db match_id referee_id ts).referees = db.referees := rfl
  simp only [assign_match] at h
  split at h
  · simp at h
  · split at h
    · simp at h
    · split at h
      · simp at h
      · split at h
        · rename_i xr rrow hrefeq xu urlv hurl hcond
          rw [hrefs] at hrefeq
          rw [Prod.mk.injEq] at h
          obtain ⟨-, h2⟩ := h
          rw [Except.ok.injEq] at h2
          subst h2
          exact ⟨rfl, rfl, rrow, urlv, hrefeq, hurl, hcond⟩
        · simp at h

theorem assign_match_db_get_other (db : ADB) (match_id referee_id ts k : String)
    (hk : k ≠ match_id) :
    alist_get k (assign_match_db db match_id referee_id ts).match_rows
      = alist_get k db.match_rows := by
  show alist_get k (alist_update match_id
      (fun m => { m with
          referee_id := some referee_id
          status := "ASSIGNED"
          assigned_at := some ts })
      db.match_rows) = alist_get k db.match_rows
  exact alist_get_update_other match_id k hk _ db.match_rows

theorem assign_match_db_get_self (db : ADB) (match_id referee_id ts : String) :
    alist_get match_id (assign_match_db db match_id referee_id ts).match_rows
      = (alist_get match_id db.match_rows).map
          (fun m => { m with
              referee_id := some referee_id
              status := "ASSIGNED"
              assigned_at := some ts }) := by
  show alist_get match_id (alist_update match_id
      (fun m => { m with
          referee_id := some referee_id
          status := "ASSIGNED"
          assigned_at := some ts })
      db.match_rows) = _
  exact alist_get_update_self match_id _ db.match_rows

theorem assign_loop_referees (deliver : String → String → Bool)
    (active : List (String × RefRow)) (ts : String) :
    ∀ (todo : List (String × MatchRow)) (idx : Nat) (db : ADB),
    (assign_loop deliver active ts db todo idx).1.referees = db.referees := by
  intro todo
  induction todo with
  | nil => intro idx db; rfl
  | cons p rest ih =>
    intro idx db
    obtain ⟨mid, m⟩ := p
    simp only [assign_loop]
    cases hcall : assign_match db deliver mid
        (active.getD (idx % active.length) ("", ⟨"", "", none⟩)).1
        m.game_type m.players ts with
    | mk db1 res =>
      have hdb1 : db1.referees = db.referees := by
        have := assign_match_fst db deliver mid
          (active.getD (idx % active.length) ("", ⟨"", "", none⟩)).1
          m.game_type m.players ts
        rw [hcall] at this
        simp at this
        rw [this]
        rfl
      cases res with
      | ok info => simpa using (ih (idx + 1) db1).trans hdb1
      | error e => simpa using (ih idx db1).trans hdb1

theorem assign_loop_frame (deliver : String → String → Bool)
    (active : List (String × RefRow)) (ts : String) :
    ∀ (todo : List (String × MatchRow)) (idx : Nat) (db : ADB) (k : String),
    k ∉ todo.map Prod.fst →
    alist_get k (assign_loop deliver active ts db todo idx).1.match_rows
      = alist_get k db.match_rows := by
  intro todo
  induction todo with
  | nil => intro idx db k hk; rfl
  | cons p rest ih =>
    intro idx db k hk
    obtain ⟨mid, m⟩ := p
    simp only [List.map_cons, List.mem_cons] at hk
    push_neg at hk
    simp only [assign_loop]
    cases hcall : assign_match db deliver mid
        (active.getD (idx % active.length) ("", ⟨"", "", none⟩)).1
        m.game_type m.players ts with
    | mk db1 res =>
      have hdb1 : alist_get k db1.match_rows = alist_get k db.match_rows := by
        have := assign_match_fst db deliver mid
          (active.getD (idx % active.length) ("", ⟨"", "", none⟩)).1
          m.game_type m.players ts
        rw [hcall] at this
        simp at this
        rw [this]
        exact assign_match_db_get_other db mid _ ts k hk.1
      cases res with
      | ok info => simpa using (ih (idx + 1) db1 k hk.2).trans hdb1
      | error e => simpa using (ih idx db1 k hk.2).trans hdb1

/-- Invariant of the assignment loop: every match in the work list ends
up durably ASSIGNED to one of the active referees whatever the delivery
outcomes, and every assignment in the returned list had a successful
delivery to its referee's registered endpoint. -/
theorem assign_loop_spec (deliver : String → String → Bool)
    (active : List (String × RefRow)) (ts : String) (hactive : active ≠ []) :
    ∀ (todo : List (String × MatchRow)) (idx : Nat) (db : ADB),
    (todo.map Prod.fst).Nodup →
    (∀ p ∈ todo, alist_get p.1 db.match_rows = some p.2) →
    (∀ p ∈ todo,
      ∃ rid row, (rid, row) ∈ active ∧
        alist_get p.1 (assign_loop deliver active ts db todo idx).1.match_rows
          = some { p.2 with
              referee_id := some rid
              status := "ASSIGNED"
              assigned_at := some ts })
    ∧ (∀ info ∈ (assign_loop deliver active ts db todo idx).2,
        ∃ row url, alist_get info.referee_id db.referees = some row
          ∧ row.endpoint_url = some url ∧ deliver url info.match_id = true) := by
  intro todo
  induction todo with
  | nil =>
    intro idx db hnd hget
    exact ⟨by simp, by intro info hin; simp [assign_loop] at hin⟩
  | cons p rest ih =>
    intro idx db hnd hget
    obtain ⟨mid, m⟩ := p
    have hlen : 0 < active.length := List.length_pos.mpr hactive
    have hrefmem : active.getD (idx % active.length) ("", ⟨"", "", none⟩) ∈ active :=
      list_getD_mem _ _ _ (Nat.mod_lt _ hlen)
    simp only [List.map_cons, List.nodup_cons] at hnd
    have hmid : alist_get mid db.match_rows = some m := hget (mid, m) (by simp)
    cases hcall : assign_match db deliver mid
        (active.getD (idx % active.length) ("", ⟨"", "", none⟩)).1
        m.game_type m.players ts with
    | mk db1 res =>
      have hdb1 : db1 = assign_match_db db mid
          (active.getD (idx % active.length) ("", ⟨"", "", none⟩)).1 ts := by
        have := assign_match_fst db deliver mid
          (active.getD (idx % active.length) ("", ⟨"", "", none⟩)).1
          m.game_type m.players ts
        rw [hcall] at this
        simpa using this
      have hmid1 : alist_get mid db1.match_rows
          = some { m with
              referee_id := some (active.getD (idx % active.length) ("", ⟨"", "", none⟩)).1
              status := "ASSIGNED"
              assigned_at := some ts } := by
        rw [hdb1, assign_match_db_get_self, hmid]
        rfl
      have hrest1 : ∀ q ∈ rest, alist_get q.1 db1.match_rows = some q.2 := by
        intro q hq
        have hqne : q.1 ≠ mid := fun he => hnd.1 (he ▸ List.mem_map.mpr ⟨q, hq, rfl⟩)
        rw [hdb1, assign_match_db_get_other db mid _ ts q.1 hqne]
        exact hget q (by simp [hq])
      have hrefs1 : db1.referees = db.referees := by rw [hdb1]; rfl
      cases res with
      | ok info =>
        have hred : assign_loop deliver active ts db ((mid, m) :: rest) idx
            = ((assign_loop deliver active ts db1 rest (idx + 1)).1,
               info :: (assign_loop deliver active ts db1 rest (idx + 1)).2) := by
          simp only [assign_loop]
          rw [hcall]
        have hih := ih (idx + 1) db1 hnd.2 hrest1
        constructor
        · intro q hq
          rcases List.mem_cons.mp hq with hq1 | hq2
          · cases hq1
            refine ⟨(active.getD (idx % active.length) ("", ⟨"", "", none⟩)).1,
              (active.getD (idx % active.length) ("", ⟨"", "", none⟩)).2, ?_, ?_⟩
            · simpa using hrefmem
            · rw [hred]
              show alist_get mid
                (assign_loop deliver active ts db1 rest (idx + 1)).1.match_rows = _
              rw [assign_loop_frame deliver active ts rest (idx + 1) db1 mid hnd.1]
              exact hmid1
          · obtain ⟨rid, row, hmem, hval⟩ := hih.1 q hq2
            refine ⟨rid, row, hmem, ?_⟩
            rw [hred]
            exact hval
        · intro info2 hinfo2
          rw [hred] at hinfo2
          rcases List.mem_cons.mp hinfo2 with h1 | h2
          · subst h1
            obtain ⟨hm1, hm2, row, url, hgref, hurl, hdel⟩ :=
              assign_match_ok_spec db db1 deliver mid
                (active.getD (idx % active.length) ("", ⟨"", "", none⟩)).1
                m.game_type m.players ts info2 hcall
            exact ⟨row, url, by rw [hm2]; exact hgref, hurl, by rw [hm1]; exact hdel⟩
          · obtain ⟨row, url, hgref, hurl, hdel⟩ := hih.2 info2 h2
            rw [hrefs1] at hgref
            exact ⟨row, url, hgref, hurl, hdel⟩
      | error e =>
        have hred : assign_loop deliver active ts db ((mid, m) :: rest) idx
            = assign_loop deliver active ts db1 rest idx := by
          simp only [assign_loop]
          rw [hcall]
        have hih := ih idx db1 hnd.2 hrest1
        constructor
        · intro q hq
          rcases List.mem_cons.mp hq with hq1 | hq2
          · cases hq1
            refine ⟨(active.getD (idx % active.length) ("", ⟨"", "", none⟩)).1,
              (active.getD (idx % active.length) ("", ⟨"", "", none⟩)).2, ?_, ?_⟩
            · simpa using hrefmem
            · rw [hred]
              rw [assign_loop_frame deliver active ts rest idx db1 mid hnd.1]
              exact hmid1
          · obtain ⟨rid, row, hmem, hval⟩ := hih.1 q hq2
            refine ⟨rid, row, hmem, ?_⟩
            rw [hred]
            exact hval
        · intro info2 hinfo2
          rw [hred] at hinfo2
          obtain ⟨row, url, hgref, hurl, hdel⟩ := hih.2 info2 hinfo2
          rw [hrefs1] at hgref
          exact ⟨row, url, hgref, hurl, hdel⟩

/-- C9: in `assign_pending_matches`, whatever the delivery outcomes
(including failures), every pending match of the league is left durably
ASSIGNED in the database to one of the ACTIVE referees with the
assignment timestamp (the persist precedes the send, and one failure
does not stop assignment of the rest); and the returned assignment list
contains only matches whose delivery to the referee's registered
endpoint succeeded, so a failed delivery is excluded from it. -/
theorem C9_assign_pending_matches_durable (db : ADB)
    (deliver : String → String → Bool) (league_id ts : String)
    (hkeys : (db.match_rows.map Prod.fst).Nodup)
    (hactive : ((get_all_referees db league_id).filter
        fun q => decide (q.2.status = "ACTIVE")) ≠ []) :
    (∀ p ∈ get_pending_matches db league_id,
      ∃ rid row,
        (rid, row) ∈ ((get_all_referees db league_id).filter
            fun q => decide (q.2.status = "ACTIVE"))
        ∧ alist_get p.1 (assign_pending_matches db deliver league_id ts).1.match_rows
          = some { p.2 with
              referee_id := some rid
              status := "ASSIGNED"
              assigned_at := some ts })
    ∧ (∀ info ∈ (assign_pending_matches db deliver league_id ts).2,
        ∃ row url, alist_get info.referee_id db.referees = some row
          ∧ row.endpoint_url = some url ∧ deliver url info.match_id = true) := by
  by_cases hp : (get_pending_matches db league_id).isEmpty
  · have hpl : get_pending_matches db league_id = [] := by
      simpa using hp
    have hempty : assign_pending_matches db deliver league_id ts = (db, []) := by
      simp [assign_pending_matches, hp]
    constructor
    · intro p hpm
      rw [hpl] at hpm
      simp at hpm
    · intro info hin
      rw [hempty] at hin
      simp at hin
  · have hne : ¬ ((get_all_referees db league_id).filter
        fun q => decide (q.2.status = "ACTIVE")).isEmpty := by
      simpa using hactive
    have hred : assign_pending_matches db deliver league_id ts
        = assign_loop deliver
            ((get_all_referees db league_id).filter
              fun q => decide (q.2.status = "ACTIVE"))
            ts db (get_pending_matches db league_id) 0 := by
      simp [assign_pending_matches, hp, hne]
    have hpnd : ((get_pending_matches db league_id).map Prod.fst).Nodup :=
      List.Nodup.sublist ((List.filter_sublist _).map Prod.fst) hkeys
    have hpget : ∀ p ∈ get_pending_matches db league_id,
        alist_get p.1 db.match_rows = some p.2 := by
      intro p hpm
      obtain ⟨k, v⟩ := p
      exact alist_get_of_mem_of_nodup _ hkeys _ _ (List.mem_of_mem_filter hpm)
    have hmain := assign_loop_spec deliver _ ts hactive
      (get_pending_matches db league_id) 0 db hpnd hpget
    rw [hred]
    exact hmain

theorem C9_witness :
    ∃ rid row,
      (rid, row) ∈ ((get_all_referees
          ⟨[("m1", ⟨"rd1", none, "tic_tac_toe", ["alice", "bob"], "PENDING", none⟩)],
           [("rd1", "L1")],
           [("r1", ⟨"L1", "ACTIVE", some "http://r"⟩)]⟩ "L1").filter
        fun q => decide (q.2.status = "ACTIVE"))
      ∧ alist_get "m1" (assign_pending_matches
          ⟨[("m1", ⟨"rd1", none, "tic_tac_toe", ["alice", "bob"], "PENDING", none⟩)],
           [("rd1", "L1")],
           [("r1", ⟨"L1", "ACTIVE", some "http://r"⟩)]⟩
          (fun _ _ => false) "L1" "t1").1.match_rows
        = some { (⟨"rd1", none, "tic_tac_toe", ["alice", "bob"], "PENDING", none⟩
            : MatchRow) with
            referee_id := some rid
            status := "ASSIGNED"
            assigned_at := some "t1" } :=
  (C9_assign_pending_matches_durable
    ⟨[("m1", ⟨"rd1", none, "tic_tac_toe", ["alice", "bob"], "PENDING", none⟩)],
     [("rd1", "L1")],
     [("r1", ⟨"L1", "ACTIVE", some "http://r"⟩)]⟩
    (fun _ _ => false) "L1" "t1" (by decide) (by decide)).1
    ("m1", ⟨"rd1", none, "tic_tac_toe", ["alice", "bob"], "PENDING", none⟩)
    (by decide)

/-! ## Standings snapshot persistence (`StandingsEngine.publish_standings`)

`standings.py` line 12 imports `PlayerRanking` from
`src/common/persistence.py`, and `publish_standings` (lines 139-152)
calls `self.database.store_player_ranking(snapshot_id,
ranking["player_id"], PlayerRanking(...))` with three positional
arguments.  `persistence.py` defines no `PlayerRanking` (its only
top-level definition is the `LeagueDatabase` class), and its
`store_player_ranking` (lines 394-410) takes eight positional
parameters.  The import therefore raises ImportError when the module is
loaded, and the call, were it reached, would raise TypeError; ranking
rows can never be persisted by this code path.  The repository's own
tests (`tests/common/test_persistence.py`,
`tests/league_manager/test_standings.py::test_publish_standings`)
exercise the three-argument `PlayerRanking` form and expect one
persisted ranking row per player.  The mismatch is recorded here at the
signature level. -/

/-- The positional parameters (after `self`) of
`LeagueDatabase.store_player_ranking` in `src/common/persistence.py`. -/
def store_player_ranking_params : List String :=
  ["snapshot_id", "player_id", "rank", "points", "wins", "draws", "losses",
   "matches_played"]

/-- The top-level names defined by `src/common/persistence.py`: the
module defines only the `LeagueDatabase` class (no `PlayerRanking`). -/
def persistence_module_defs : List String := ["LeagueDatabase"]

/-- The positional arguments passed to `store_player_ranking` at its
call site inside `StandingsEngine.publish_standings`. -/
def publish_standings_call_args : List String :=
  ["snapshot_id", "player_id", "PlayerRanking(...)"]

/-- C4: the `PlayerRanking` name `publish_standings` imports and passes
does not exist in the persistence module, and the call supplies fewer
positional arguments than `store_player_ranking` declares, so a
standings snapshot's ranking rows can never be durably persisted: every
`publish_standings` call fails instead of writing one ranking row per
ranked player. -/
theorem C4_publish_standings_broken :
    "PlayerRanking" ∉ persistence_module_defs
    ∧ publish_standings_call_args.length ≠ store_player_ranking_params.length := by
  constructor <;> decide

end LeagueSys
